import Mathlib

/-
Verification of `code/cleaning/01_clean_tse_data.py` (4g-elections).

The script computes an Esteban-Ray polarization index per municipality-year
from TSE vote records joined against a party-ideology table.  Floating-point
values are modelled as real numbers (exact CSV decimals as rationals where
they only ride along); numpy arrays and pandas data frames are modelled as
lists of records, preserving row order, since every operation used by the
script (filter, merge, groupby, transform, sort) is order-deterministic.
-/

/-! ### Esteban-Ray index (`esteban_ray_index`, lines 50-99)

The Python function receives two parallel numpy arrays.  We model them as
two lists zipped together; the boolean mask `vote_shares > 0` keeps the
pairs whose share is positive, then shares are divided by their sum and the
double loop accumulates `s_i ** (1 + alpha) * s_j * |p_i - p_j|` over all
ordered pairs `i ≠ j`.  `K = 1.0` multiplies the total. -/

/-- The explicit double loop of the Python function: sum over all ordered
pairs `i ≠ j` of `sn i ^ (1 + alpha) * sn j * |p i - p j|`, with
out-of-range indices defaulting to `0` (never reached: both lists have the
same length at every call site). -/
noncomputable def pairwiseSum (sn p : List ℝ) (alpha : ℝ) : ℝ :=
  ∑ i ∈ Finset.range sn.length, ∑ j ∈ Finset.range sn.length,
    if i ≠ j then sn.getD i 0 ^ (1 + alpha) * sn.getD j 0 * |p.getD i 0 - p.getD j 0| else 0

/-- `vote_shares / vote_shares.sum()`: divide every entry by the list sum. -/
noncomputable def normShares (s : List ℝ) : List ℝ :=
  s.map fun x => x / s.sum

/-- Model of `esteban_ray_index(vote_shares, ideologies, alpha)`:
mask out non-positive shares, normalize the rest, return
`K * Σ_{i ≠ j} s_i^(1+alpha) * s_j * |p_i - p_j|` with `K = 1.0`. -/
noncomputable def esteban_ray_index (vote_shares ideologies : List ℝ) (alpha : ℝ) : ℝ :=
  let kept := (vote_shares.zip ideologies).filter fun q => decide (0 < q.1)
  let K : ℝ := 1.0
  K * pairwiseSum (normShares (kept.map Prod.fst)) (kept.map Prod.snd) alpha

/-! #### Basic lemmas about the index -/

lemma pairwiseSum_nil (p : List ℝ) (alpha : ℝ) : pairwiseSum [] p alpha = 0 := by
  simp [pairwiseSum]

lemma normShares_nil : normShares [] = [] := rfl

/-- C6: a group with exactly one qualifying party (a single share and a
single ideology value) always yields index exactly 0, whatever the share
and ideology values are; in particular no division by zero occurs (the
model function is total). -/
theorem esteban_ray_index_single_party (a b : ℝ) :
    esteban_ray_index [a] [b] (1.6 : ℝ) = 0 := by
  by_cases h : (0 : ℝ) < a
  · simp [esteban_ray_index, pairwiseSum, normShares, h]
  · simp [esteban_ray_index, pairwiseSum, normShares, h]

/-- C9: if every entry of the vote-share vector is zero or negative
(including the vacuous case of the empty vector), the mask removes every
entry and the function returns 0; the model function is total, so no
division-by-zero or indexing error can occur. -/
theorem esteban_ray_index_no_positive_share (vote_shares ideologies : List ℝ)
    (h : ∀ x ∈ vote_shares, x ≤ 0) :
    esteban_ray_index vote_shares ideologies (1.6 : ℝ) = 0 := by
  have hnil : (vote_shares.zip ideologies).filter (fun q => decide (0 < q.1)) = [] := by
    rw [List.filter_eq_nil_iff]
    intro q hq
    have hq1 : q.1 ∈ vote_shares := (List.of_mem_zip hq).1
    simpa using not_lt.mpr (h _ hq1)
  simp [esteban_ray_index, hnil, pairwiseSum, normShares]

lemma getD_nonneg {l : List ℝ} (h : ∀ x ∈ l, 0 ≤ x) (i : ℕ) : 0 ≤ l.getD i 0 := by
  induction l generalizing i with
  | nil => simp [List.getD]
  | cons a t ih =>
    cases i with
    | zero => simpa using h a (by simp)
    | succ n =>
      simpa using ih (fun x hx => h x (by simp [hx])) n

lemma pairwiseSum_nonneg (sn p : List ℝ) (alpha : ℝ) (h : ∀ x ∈ sn, 0 ≤ x) :
    0 ≤ pairwiseSum sn p alpha := by
  refine Finset.sum_nonneg fun i _ => Finset.sum_nonneg fun j _ => ?_
  split
  · exact mul_nonneg
      (mul_nonneg (Real.rpow_nonneg (getD_nonneg h i) _) (getD_nonneg h j)) (abs_nonneg _)
  · exact le_refl 0

/-- Entries kept by the `vote_shares > 0` mask are positive. -/
lemma kept_fst_pos (vote_shares ideologies : List ℝ) :
    ∀ x ∈ ((vote_shares.zip ideologies).filter fun q => decide (0 < q.1)).map Prod.fst,
      0 < x := by
  intro x hx
  obtain ⟨q, hq, rfl⟩ := List.mem_map.1 hx
  exact of_decide_eq_true (List.mem_filter.1 hq).2

lemma normShares_entry_nonneg {s : List ℝ} (hs : ∀ x ∈ s, 0 ≤ x) :
    ∀ x ∈ normShares s, 0 ≤ x := by
  intro x hx
  obtain ⟨y, hy, rfl⟩ := List.mem_map.1 hx
  exact div_nonneg (hs _ hy) (List.sum_nonneg hs)

/-- C7: for every vector of non-negative vote shares and every vector of
ideology positions, the value returned by `esteban_ray_index` (at the
script's `alpha = 1.6`) is non-negative.  (The hypothesis mirrors the
claim; the mask makes the result non-negative even without it.) -/
theorem esteban_ray_index_nonneg (vote_shares ideologies : List ℝ)
    (h : ∀ x ∈ vote_shares, 0 ≤ x) :
    0 ≤ esteban_ray_index vote_shares ideologies (1.6 : ℝ) := by
  clear h
  have hpos := kept_fst_pos vote_shares ideologies
  have hnn : ∀ x ∈ ((vote_shares.zip ideologies).filter fun q => decide (0 < q.1)).map
      Prod.fst, (0 : ℝ) ≤ x := fun x hx => le_of_lt (hpos x hx)
  have := pairwiseSum_nonneg
    (normShares (((vote_shares.zip ideologies).filter fun q => decide (0 < q.1)).map Prod.fst))
    (((vote_shares.zip ideologies).filter fun q => decide (0 < q.1)).map Prod.snd)
    (1.6 : ℝ) (normShares_entry_nonneg hnn)
  have h1 : (1.0 : ℝ) = 1 := by norm_num
  simpa [esteban_ray_index, h1] using this

/-- Witness for C7 at a concrete input: shares `[6/10, 4/10]` are
non-negative and the index over ideologies `[2, 8]` is non-negative. -/
theorem esteban_ray_index_nonneg_witness :
    (∀ x ∈ [(6 : ℝ)/10, 4/10], 0 ≤ x) ∧
      0 ≤ esteban_ray_index [(6 : ℝ)/10, 4/10] [2, 8] (1.6 : ℝ) := by
  constructor
  · intro x hx
    simp only [List.mem_cons, List.not_mem_nil, or_false] at hx
    rcases hx with rfl | rfl <;> norm_num
  · refine esteban_ray_index_nonneg _ _ ?_
    intro x hx
    simp only [List.mem_cons, List.not_mem_nil, or_false] at hx
    rcases hx with rfl | rfl <;> norm_num

lemma list_sum_div (l : List ℝ) (T : ℝ) : (l.map fun x => x / T).sum = l.sum / T := by
  induction l with
  | nil => simp
  | cons a t ih => simp [ih, add_div]

lemma normShares_map_mul (c : ℝ) (hc : c ≠ 0) (s : List ℝ) :
    normShares (s.map fun x => c * x) = normShares s := by
  unfold normShares
  have hsum : ((s.map fun x => c * x)).sum = c * s.sum := by
    simpa using List.sum_map_mul_left s id c
  rw [List.map_map, hsum]
  refine List.map_congr_left fun x _ => ?_
  exact mul_div_mul_left x s.sum hc

/-- C10: the index is invariant under positive scaling of the vote-share
argument, because the kept shares are re-normalized by their sum before
the pairwise loop. -/
theorem esteban_ray_index_scale_invariant (c : ℝ) (hc : 0 < c)
    (vote_shares ideologies : List ℝ) (alpha : ℝ) :
    esteban_ray_index (vote_shares.map fun x => c * x) ideologies alpha
      = esteban_ray_index vote_shares ideologies alpha := by
  have hzip : (vote_shares.map fun x => c * x).zip ideologies
      = (vote_shares.zip ideologies).map (Prod.map (fun x => c * x) id) :=
    List.zip_map_left _ _ _
  have hfilter :
      ((vote_shares.zip ideologies).map (Prod.map (fun x => c * x) id)).filter
          (fun q => decide (0 < q.1))
        = ((vote_shares.zip ideologies).filter fun q => decide (0 < q.1)).map
            (Prod.map (fun x => c * x) id) := by
    rw [List.filter_map]
    congr 1
    refine List.filter_congr fun q _ => ?_
    exact decide_eq_decide.2 (mul_pos_iff_of_pos_left hc)
  have hfst : ∀ l : List (ℝ × ℝ),
      (l.map (Prod.map (fun x => c * x) id)).map Prod.fst
        = (l.map Prod.fst).map fun x => c * x := by
    intro l
    rw [List.map_map, List.map_map]
    rfl
  have hsnd : ∀ l : List (ℝ × ℝ),
      (l.map (Prod.map (fun x => c * x) id)).map Prod.snd = l.map Prod.snd := by
    intro l
    rw [List.map_map]
    rfl
  simp only [esteban_ray_index]
  rw [hzip, hfilter, hfst, hsnd, normShares_map_mul c hc.ne']

/-- Witness for C10 at a concrete input: scaling shares `[1, 3]` by `c = 2`
leaves the index over ideologies `[0, 5]` unchanged. -/
theorem esteban_ray_index_scale_invariant_witness :
    (0 : ℝ) < 2 ∧
      esteban_ray_index ([(1 : ℝ), 3].map fun x => 2 * x) [0, 5] (1.6 : ℝ)
        = esteban_ray_index [(1 : ℝ), 3] [0, 5] (1.6 : ℝ) :=
  ⟨by norm_num, esteban_ray_index_scale_invariant 2 (by norm_num) [(1 : ℝ), 3] [0, 5] (1.6 : ℝ)⟩

/-- Modelled from the spec's words for the C1 refinement comparison:
"drop entries with zero vote share, re-normalize the remaining shares to
sum to 1, and return `K * Σ_{i ≠ j} s_i^(1+α) · s_j · |p_i − p_j|` with
`α = 1.6` and `K = 1.0`". -/
noncomputable def esteban_ray_specFormula (s p : List ℝ) : ℝ :=
  let kept := (s.zip p).filter fun q => decide (q.1 ≠ 0)
  1.0 * pairwiseSum (normShares (kept.map Prod.fst)) (kept.map Prod.snd) (1.6 : ℝ)

/-- C1: on vote-share vectors that are non-negative with at least one
positive entry (and an ideology vector of the same length),
`esteban_ray_index` at `alpha = 1.6` computes exactly the spec's formula
(drop zero shares, re-normalize, `K * Σ_{i ≠ j} s_i^2.6 s_j |p_i − p_j|`
with `K = 1`), and the re-normalized kept shares indeed sum to 1. -/
theorem esteban_ray_index_matches_spec_formula (s p : List ℝ)
    (hlen : s.length = p.length)
    (h0 : ∀ x ∈ s, 0 ≤ x) (h1 : ∃ x ∈ s, 0 < x) :
    esteban_ray_index s p (1.6 : ℝ) = esteban_ray_specFormula s p
      ∧ (normShares (((s.zip p).filter fun q => decide (0 < q.1)).map Prod.fst)).sum = 1 := by
  constructor
  · unfold esteban_ray_index esteban_ray_specFormula
    have hfe : (s.zip p).filter (fun q => decide (0 < q.1))
        = (s.zip p).filter fun q => decide (q.1 ≠ 0) := by
      refine List.filter_congr fun q hq => ?_
      have hq1 : 0 ≤ q.1 := h0 _ (List.of_mem_zip hq).1
      refine decide_eq_decide.2 ⟨fun h => ne_of_gt h, fun h => hq1.lt_of_ne (Ne.symm h)⟩
    rw [hfe]
  · obtain ⟨x, hx, hxpos⟩ := h1
    obtain ⟨k, hk, hgx⟩ := List.mem_iff_getElem.1 hx
    have hkz : k < (s.zip p).length := by
      rw [List.length_zip, hlen, min_self, ← hlen]
      exact hk
    have hmemz : (s.zip p)[k] ∈ s.zip p := List.getElem_mem hkz
    have hfst1 : ((s.zip p)[k]).1 = s[k] := by
      rw [List.getElem_zip]
    have hkeep : (s.zip p)[k] ∈ (s.zip p).filter fun q => decide (0 < q.1) := by
      refine List.mem_filter.2 ⟨hmemz, ?_⟩
      rw [hfst1, hgx]
      exact decide_eq_true hxpos
    have hmemf : s[k] ∈ ((s.zip p).filter fun q => decide (0 < q.1)).map Prod.fst := by
      refine List.mem_map.2 ⟨(s.zip p)[k], hkeep, hfst1⟩
    have hsumpos :
        0 < (((s.zip p).filter fun q => decide (0 < q.1)).map Prod.fst).sum :=
      List.sum_pos _ (kept_fst_pos s p) (List.ne_nil_of_mem hmemf)
    unfold normShares
    rw [list_sum_div]
    exact div_self (ne_of_gt hsumpos)

/-- Witness for C1 at a concrete input: shares `[1/2, 1/2]`, ideologies
`[0, 1]` satisfy the hypotheses, and the conclusion holds there. -/
theorem esteban_ray_index_matches_spec_formula_witness :
    (([(1 : ℝ)/2, 1/2].length = [(0 : ℝ), 1].length)
        ∧ (∀ x ∈ [(1 : ℝ)/2, 1/2], 0 ≤ x) ∧ (∃ x ∈ [(1 : ℝ)/2, 1/2], 0 < x))
      ∧ (esteban_ray_index [(1 : ℝ)/2, 1/2] [0, 1] (1.6 : ℝ)
            = esteban_ray_specFormula [(1 : ℝ)/2, 1/2] [0, 1]
          ∧ (normShares ((([(1 : ℝ)/2, 1/2].zip [(0 : ℝ), 1]).filter
              fun q => decide (0 < q.1)).map Prod.fst)).sum = 1) := by
  have hmem : ∀ x ∈ [(1 : ℝ)/2, 1/2], 0 ≤ x := by
    intro x hx
    simp only [List.mem_cons, List.not_mem_nil, or_false] at hx
    rcases hx with rfl | rfl <;> norm_num
  have hex : ∃ x ∈ [(1 : ℝ)/2, 1/2], 0 < x := ⟨1/2, by simp, by norm_num⟩
  exact ⟨⟨rfl, hmem, hex⟩,
    esteban_ray_index_matches_spec_formula [(1 : ℝ)/2, 1/2] [0, 1] rfl hmem hex⟩

/-- Witness for C9 at a concrete input: shares `[0, -1]` are all
non-positive and the index is 0. -/
theorem esteban_ray_index_no_positive_share_witness :
    (∀ x ∈ [(0 : ℝ), -1], x ≤ 0) ∧
      esteban_ray_index [(0 : ℝ), -1] [5, 7] (1.6 : ℝ) = 0 := by
  constructor
  · intro x hx
    simp only [List.mem_cons, List.not_mem_nil, or_false] at hx
    rcases hx with rfl | rfl <;> norm_num
  · refine esteban_ray_index_no_positive_share _ _ ?_
    intro x hx
    simp only [List.mem_cons, List.not_mem_nil, or_false] at hx
    rcases hx with rfl | rfl <;> norm_num

/-! ### Data loading (`load_party_ideologies`, lines 102-123, and
`load_tse_data`, lines 126-165)

CSV rows are modelled as records.  `load_party_ideologies` concatenates the
base Zucco-Power table with the five hardcoded 2018 additions
(`pd.concat([ideology_df, additions])`).  `load_tse_data` is modelled on the
outcome of decoding: when the latin1 decode succeeds the chunked read
filters every chunk to `DS_CARGO == 'Presidente'` and `NR_TURNO == 1` and
concatenates; when it raises a decode error the fallback read returns the
whole file with no filter, exactly as in the `except UnicodeDecodeError`
branch. -/

structure IdeologyRow where
  party : String
  ideology : ℚ
  year : Int
deriving DecidableEq

structure TseRow where
  ds_cargo : String
  nr_turno : Int
  cd_municipio : ℕ
  sg_partido : String
  qt_votos : ℕ
deriving DecidableEq

/-- The five hardcoded `PARTY_IDEOLOGY_2018_ADDITIONS` of the script. -/
def PARTY_IDEOLOGY_2018_ADDITIONS : List (String × ℚ) :=
  [("PSL", 8.5), ("NOVO", 9.0), ("PATRI", 5.0), ("PODE", 4.5), ("PMN", 5.5)]

/-- The `additions` data frame built from the hardcoded dictionary, each
row carrying `year = 2018`. -/
def additions2018 : List IdeologyRow :=
  PARTY_IDEOLOGY_2018_ADDITIONS.map fun pr => { party := pr.1, ideology := pr.2, year := 2018 }

/-- `load_party_ideologies`: the base table concatenated with the 2018
additions (`pd.concat([ideology_df, additions], ignore_index=True)`). -/
def load_party_ideologies (base : List IdeologyRow) : List IdeologyRow :=
  base ++ additions2018

/-- The filter applied inside the chunked read of `load_tse_data`:
`(chunk['DS_CARGO'] == 'Presidente') & (chunk['NR_TURNO'] == 1)`. -/
def is_president_round1 (r : TseRow) : Bool :=
  r.ds_cargo == "Presidente" && r.nr_turno == 1

/-- `load_tse_data`, modelled on the decode outcome: `latin1_chunks = some
chunks` is the successful chunked latin1 read (each chunk filtered, then
concatenated); `none` is a latin1 `UnicodeDecodeError`, in which case the
fallback `pd.read_csv(..., encoding='iso-8859-1')` result is returned with
no filter applied. -/
def load_tse_data (latin1_chunks : Option (List (List TseRow)))
    (fallback_rows : List TseRow) : List TseRow :=
  match latin1_chunks with
  | some chunks => (chunks.map fun c => c.filter is_president_round1).flatten
  | none => fallback_rows

/-- A concrete non-presidential, second-round record. -/
def governor_round2_row : TseRow :=
  { ds_cargo := "Governador", nr_turno := 2, cd_municipio := 100,
    sg_partido := "X", qt_votos := 50 }

/-- C2: the encoding-fallback path of `load_tse_data` returns the file's
records without the president/round-1 filter: a file whose latin1 decode
fails and which contains a governor round-2 record yields that record in
the loaded data, and nothing downstream filters on office or round, so it
participates in aggregation.  This contradicts the claim that every load
path discards such records. -/
theorem load_tse_data_fallback_skips_filter :
    load_tse_data none [governor_round2_row] = [governor_round2_row]
      ∧ is_president_round1 governor_round2_row = false
      ∧ load_tse_data (some [[governor_round2_row]]) [] = [] := by
  refine ⟨rfl, by decide, by decide⟩

/-- A base-table row colliding with the hardcoded PSL 2018 addition. -/
def psl_base_row : IdeologyRow :=
  { party := "PSL", ideology := 99/10, year := 2018 }

/-- C3 counterexample: when the base table already has a `(PSL, 2018)`
entry, the built table contains two entries for that pair — the claimed
"at most one ideology value per (party_code, year) pair" is false, and no
last-write-wins override occurs. -/
theorem load_party_ideologies_duplicate_pair :
    ¬ ((load_party_ideologies [psl_base_row]).countP
        (fun r => r.party == "PSL" && r.year == 2018) ≤ 1) := by
  decide

/-- C3 amended: the builder appends the five 2018 corrections after the
base table and never deduplicates or overrides: for every `(party, year)`
pair the built table contains the base entries for that pair plus the
correction entries for that pair (so a pair defined by both contributes
two entries, both retained). -/
theorem load_party_ideologies_appends_counts (base : List IdeologyRow)
    (p : String) (y : Int) :
    (load_party_ideologies base).countP (fun r => r.party == p && r.year == y)
      = base.countP (fun r => r.party == p && r.year == y)
        + additions2018.countP (fun r => r.party == p && r.year == y) :=
  List.countP_append _ _ _

/-! ### Polarization engine (`calculate_municipality_polarization`,
lines 168-233, and the final sort in `main`, lines 267-270)

The merge `votes_df.merge(ideology_year[['party','ideology']],
left_on='SG_PARTIDO', right_on='party', how='left')` produces, for every
vote row in order, one output row per matching ideology row (a vote row
with no match gets a single row with a missing ideology).  `dropna`
removes rows with missing ideology; vote shares divide each row's
`QT_VOTOS` by the per-municipality sum computed after that removal;
`groupby('CD_MUNICIPIO')` iterates groups in ascending key order,
preserving row order inside each group. -/

structure VoteRow where
  cd_municipio : ℕ
  sg_partido : String
  qt_votos : ℕ
deriving DecidableEq

structure MergedRow where
  cd_municipio : ℕ
  sg_partido : String
  qt_votos : ℕ
  ideology : Option ℚ
deriving DecidableEq

structure PolarizationResult where
  cod_municipio : ℕ
  ano : Int
  polarizacao_er : ℝ
  num_partidos : ℕ
  total_votos : ℕ

/-- `ideology_df[ideology_df['year'] == year]`. -/
def ideologyForYear (ideology_df : List IdeologyRow) (year : Int) : List IdeologyRow :=
  ideology_df.filter fun r => r.year == year

/-- The left merge of vote rows with ideology rows on
`SG_PARTIDO = party`. -/
def mergeIdeology (votes : List VoteRow) (ideo : List IdeologyRow) : List MergedRow :=
  (votes.map fun v =>
    let ms := ideo.filter fun r => r.party == v.sg_partido
    if ms.isEmpty then
      [{ cd_municipio := v.cd_municipio, sg_partido := v.sg_partido,
         qt_votos := v.qt_votos, ideology := none }]
    else
      ms.map fun r =>
        { cd_municipio := v.cd_municipio, sg_partido := v.sg_partido,
          qt_votos := v.qt_votos, ideology := some r.ideology }).flatten

/-- The merged table for the year after
`merged.dropna(subset=['ideology'])`. -/
def cleanMerged (votes_df : List VoteRow) (ideology_df : List IdeologyRow)
    (year : Int) : List MergedRow :=
  (mergeIdeology votes_df (ideologyForYear ideology_df year)).filter fun r => r.ideology.isSome

/-- The rows of one municipality group, in row order
(`merged.groupby('CD_MUNICIPIO')` preserves intra-group order). -/
def groupRows (rows : List MergedRow) (m : ℕ) : List MergedRow :=
  rows.filter fun r => r.cd_municipio == m

/-- `municipality_totals = merged.groupby('CD_MUNICIPIO')['QT_VOTOS'].sum()`. -/
def municipalityTotal (rows : List MergedRow) (m : ℕ) : ℕ :=
  ((groupRows rows m).map fun r => r.qt_votos).sum

/-- The `vote_share` column: `transform(lambda x: x / x.sum())` grouped by
municipality, i.e. each row's votes divided by its group's total. -/
noncomputable def voteShare (rows : List MergedRow) (r : MergedRow) : ℝ :=
  (r.qt_votos : ℝ) / (municipalityTotal rows r.cd_municipio : ℝ)

/-- The distinct municipality codes in ascending order — the iteration
order of `groupby('CD_MUNICIPIO')`. -/
def muniKeys (rows : List MergedRow) : List ℕ :=
  List.insertionSort (fun a b => a ≤ b) ((rows.map fun r => r.cd_municipio).dedup)

/-- `calculate_municipality_polarization(votes_df, ideology_df, year)`:
one `PolarizationResult` per municipality group of the cleaned merged
table, with the Esteban-Ray index of the group's share and ideology
columns (`alpha = 1.6` is the Python default argument),
`num_partidos = len(group)` and `total_votos` the group's vote sum. -/
noncomputable def calculate_municipality_polarization (votes_df : List VoteRow)
    (ideology_df : List IdeologyRow) (year : Int) : List PolarizationResult :=
  (muniKeys (cleanMerged votes_df ideology_df year)).map fun m =>
    { cod_municipio := m
      ano := year
      polarizacao_er :=
        esteban_ray_index
          ((groupRows (cleanMerged votes_df ideology_df year) m).map
            (voteShare (cleanMerged votes_df ideology_df year)))
          ((groupRows (cleanMerged votes_df ideology_df year) m).map fun r =>
            ((r.ideology.getD 0 : ℚ) : ℝ))
          (1.6 : ℝ)
      num_partidos := (groupRows (cleanMerged votes_df ideology_df year) m).length
      total_votos := municipalityTotal (cleanMerged votes_df ideology_df year) m }

/-- The comparison used by `final_df.sort_values(['cod_municipio', 'ano'])`:
lexicographic on (municipality code, year). -/
def resLE (a b : PolarizationResult) : Prop :=
  a.cod_municipio < b.cod_municipio
    ∨ (a.cod_municipio = b.cod_municipio ∧ a.ano ≤ b.ano)

instance : DecidableRel resLE := fun a b => by
  unfold resLE
  exact inferInstance

instance : IsTotal PolarizationResult resLE := by
  constructor
  intro a b
  rcases lt_trichotomy a.cod_municipio b.cod_municipio with h | h | h
  · exact Or.inl (Or.inl h)
  · rcases le_total a.ano b.ano with ha | ha
    · exact Or.inl (Or.inr ⟨h, ha⟩)
    · exact Or.inr (Or.inr ⟨h.symm, ha⟩)
  · exact Or.inr (Or.inl h)

instance : IsTrans PolarizationResult resLE := by
  constructor
  intro a b c hab hbc
  rcases hab with h1 | ⟨h1, h2⟩ <;> rcases hbc with h3 | ⟨h3, h4⟩
  · exact Or.inl (h1.trans h3)
  · exact Or.inl (h3 ▸ h1)
  · exact Or.inl (h1 ▸ h3)
  · exact Or.inr ⟨h1.trans h3, h2.trans h4⟩

/-- `pd.concat(all_results); final_df.sort_values(['cod_municipio', 'ano'])`:
the per-year result tables concatenated and sorted lexicographically by
(municipality code, year). -/
def final_results (all_results : List (List PolarizationResult)) :
    List PolarizationResult :=
  List.insertionSort resLE all_results.flatten

/-- C8: in the final combined output, municipality codes are
non-decreasing, and records with equal municipality codes have
non-decreasing years. -/
theorem final_results_sorted (all_results : List (List PolarizationResult)) :
    (final_results all_results).Pairwise
      (fun a b => a.cod_municipio ≤ b.cod_municipio
        ∧ (a.cod_municipio = b.cod_municipio → a.ano ≤ b.ano)) := by
  have h := List.sorted_insertionSort resLE all_results.flatten
  refine h.imp ?_
  intro a b hab
  rcases hab with h1 | ⟨h1, h2⟩
  · exact ⟨le_of_lt h1, fun he => absurd he (ne_of_lt h1)⟩
  · exact ⟨le_of_eq h1, fun _ => h2⟩

/-! ### C4: the `num_partidos` field -/

/-- C4 amended: the `num_partidos` field of each emitted result equals the
number of merged vote records (candidate-municipality-zone rows surviving
the ideology join) in that municipality's group — `len(group)` — which is
at least 1 but is the record count, not the distinct-party count. -/
theorem num_partidos_record_count (votes_df : List VoteRow)
    (ideology_df : List IdeologyRow) (year : Int) (res : PolarizationResult)
    (hres : res ∈ calculate_municipality_polarization votes_df ideology_df year) :
    res.num_partidos
        = (groupRows (cleanMerged votes_df ideology_df year) res.cod_municipio).length
      ∧ 1 ≤ res.num_partidos := by
  obtain ⟨m, hm, rfl⟩ := List.mem_map.1 hres
  refine ⟨rfl, ?_⟩
  have hm2 : m ∈ ((cleanMerged votes_df ideology_df year).map fun r => r.cd_municipio).dedup :=
    ((List.perm_insertionSort _ _).mem_iff).1 hm
  have hm3 : m ∈ (cleanMerged votes_df ideology_df year).map fun r => r.cd_municipio :=
    List.mem_dedup.1 hm2
  obtain ⟨r, hr, hrm⟩ := List.mem_map.1 hm3
  have hrg : r ∈ groupRows (cleanMerged votes_df ideology_df year) m :=
    List.mem_filter.2 ⟨hr, by simp [hrm]⟩
  exact List.length_pos.2 (List.ne_nil_of_mem hrg)

/-- Party A of municipality 100 split over two electoral zones. -/
def c4_votes : List VoteRow :=
  [{ cd_municipio := 100, sg_partido := "A", qt_votos := 10 },
   { cd_municipio := 100, sg_partido := "A", qt_votos := 20 }]

def c4_ideo : List IdeologyRow :=
  [{ party := "A", ideology := 5, year := 2018 }]

/-- C4 counterexample: with one party recorded in two zones of the same
municipality, the emitted `num_partidos` is 2 (the record count) while the
group has exactly 1 distinct qualifying party — refuting the claim that
the field equals the distinct qualifying party count. -/
theorem num_partidos_counts_records :
    ((calculate_municipality_polarization c4_votes c4_ideo 2018).map
        fun r => r.num_partidos) = [2]
      ∧ (((cleanMerged c4_votes c4_ideo 2018).map fun r => r.sg_partido).dedup).length = 1 := by
  constructor
  · rfl
  · decide

instance : Inhabited PolarizationResult :=
  ⟨{ cod_municipio := 0, ano := 0, polarizacao_er := 0, num_partidos := 0, total_votos := 0 }⟩

def c4w_votes : List VoteRow :=
  [{ cd_municipio := 200, sg_partido := "B", qt_votos := 7 }]

def c4w_ideo : List IdeologyRow :=
  [{ party := "B", ideology := 3, year := 2018 }]

noncomputable def c4w_out : List PolarizationResult :=
  calculate_municipality_polarization c4w_votes c4w_ideo 2018

lemma c4w_out_len : 0 < c4w_out.length := by decide

/-- Witness for C4 at a concrete input: the single emitted result is in the
output and its `num_partidos` is the group's record count, at least 1. -/
theorem num_partidos_record_count_witness :
    (c4w_out.get ⟨0, c4w_out_len⟩ ∈ c4w_out)
      ∧ ((c4w_out.get ⟨0, c4w_out_len⟩).num_partidos
          = (groupRows (cleanMerged c4w_votes c4w_ideo 2018)
              (c4w_out.get ⟨0, c4w_out_len⟩).cod_municipio).length
        ∧ 1 ≤ (c4w_out.get ⟨0, c4w_out_len⟩).num_partidos) :=
  ⟨List.get_mem _ _ _,
   num_partidos_record_count c4w_votes c4w_ideo 2018 _ (List.get_mem _ _ _)⟩

/-! ### C5: vote shares -/

/-- C5 amended: each remaining record's vote share is its votes divided by
the per-municipality sum of votes over the records remaining after the
ideology join drops unmatched rows (excluded parties appear in neither
numerator nor denominator), and whenever a group's post-exclusion vote
total is positive the group's shares sum to 1.  (For a group whose
remaining records all have zero votes, the shares are 0/0 and do not sum
to 1 — see the counterexample.) -/
theorem vote_share_formula_and_sum_one (votes_df : List VoteRow)
    (ideology_df : List IdeologyRow) (year : Int) (m : ℕ)
    (hm : m ∈ muniKeys (cleanMerged votes_df ideology_df year))
    (hpos : 0 < municipalityTotal (cleanMerged votes_df ideology_df year) m) :
    (∀ r ∈ cleanMerged votes_df ideology_df year,
        voteShare (cleanMerged votes_df ideology_df year) r
          = (r.qt_votos : ℝ)
            / (((((groupRows (cleanMerged votes_df ideology_df year) r.cd_municipio).map
                fun x => x.qt_votos).sum : ℕ) : ℝ)))
      ∧ ((groupRows (cleanMerged votes_df ideology_df year) m).map
          (voteShare (cleanMerged votes_df ideology_df year))).sum = 1 := by
  constructor
  · intro r _
    rfl
  · have hsh : (groupRows (cleanMerged votes_df ideology_df year) m).map
          (voteShare (cleanMerged votes_df ideology_df year))
        = (groupRows (cleanMerged votes_df ideology_df year) m).map fun r =>
            (r.qt_votos : ℝ)
              / (municipalityTotal (cleanMerged votes_df ideology_df year) m : ℝ) := by
      refine List.map_congr_left fun r hr => ?_
      have hrm : r.cd_municipio = m := by
        have := (List.mem_filter.1 hr).2
        simpa using this
      simp only [voteShare, hrm]
    rw [hsh]
    have hmm : ((groupRows (cleanMerged votes_df ideology_df year) m).map fun r =>
          (r.qt_votos : ℝ)
            / (municipalityTotal (cleanMerged votes_df ideology_df year) m : ℝ))
        = (((groupRows (cleanMerged votes_df ideology_df year) m).map fun r =>
            (r.qt_votos : ℝ)).map fun x =>
              x / (municipalityTotal (cleanMerged votes_df ideology_df year) m : ℝ)) := by
      rw [List.map_map]
      rfl
    rw [hmm, list_sum_div]
    have hcast : ((groupRows (cleanMerged votes_df ideology_df year) m).map fun r =>
          (r.qt_votos : ℝ)).sum
        = (municipalityTotal (cleanMerged votes_df ideology_df year) m : ℝ) := by
      rw [show ((municipalityTotal (cleanMerged votes_df ideology_df year) m : ℕ) : ℝ)
          = ((((groupRows (cleanMerged votes_df ideology_df year) m).map fun r =>
              r.qt_votos).sum : ℕ) : ℝ) from rfl]
      rw [Nat.cast_list_sum, List.map_map]
      rfl
    rw [hcast]
    refine div_self ?_
    exact_mod_cast ne_of_gt hpos

def c5w_votes : List VoteRow :=
  [{ cd_municipio := 300, sg_partido := "C", qt_votos := 10 }]

def c5w_ideo : List IdeologyRow :=
  [{ party := "C", ideology := 2, year := 2018 }]

/-- Witness for C5 at a concrete input: municipality 300 is a group key,
its total is positive, and the conclusion holds there. -/
theorem vote_share_formula_and_sum_one_witness :
    (300 ∈ muniKeys (cleanMerged c5w_votes c5w_ideo 2018)
        ∧ 0 < municipalityTotal (cleanMerged c5w_votes c5w_ideo 2018) 300)
      ∧ ((∀ r ∈ cleanMerged c5w_votes c5w_ideo 2018,
            voteShare (cleanMerged c5w_votes c5w_ideo 2018) r
              = (r.qt_votos : ℝ)
                / (((((groupRows (cleanMerged c5w_votes c5w_ideo 2018) r.cd_municipio).map
                    fun x => x.qt_votos).sum : ℕ) : ℝ)))
          ∧ ((groupRows (cleanMerged c5w_votes c5w_ideo 2018) 300).map
              (voteShare (cleanMerged c5w_votes c5w_ideo 2018))).sum = 1) :=
  ⟨⟨by decide, by decide⟩,
   vote_share_formula_and_sum_one c5w_votes c5w_ideo 2018 300 (by decide) (by decide)⟩

def c5z_votes : List VoteRow :=
  [{ cd_municipio := 100, sg_partido := "A", qt_votos := 0 }]

def c5z_ideo : List IdeologyRow :=
  [{ party := "A", ideology := 5, year := 2018 }]

/-- C5 counterexample: a municipality group whose only qualifying record
has zero votes is a group of the pipeline (its key is in the output), yet
its vote shares do not sum to 1 (the share is 0/0; pandas produces NaN
there, the real-number model 0 — under neither convention is the sum 1).
This refutes "vote shares within each group sum to 1 regardless of the
raw data". -/
theorem vote_share_zero_total_sum_ne_one :
    100 ∈ muniKeys (cleanMerged c5z_votes c5z_ideo 2018)
      ∧ ((groupRows (cleanMerged c5z_votes c5z_ideo 2018) 100).map
          (voteShare (cleanMerged c5z_votes c5z_ideo 2018))).sum ≠ 1 := by
  constructor
  · decide
  · have hg : groupRows (cleanMerged c5z_votes c5z_ideo 2018) 100
        = [{ cd_municipio := 100, sg_partido := "A", qt_votos := 0, ideology := some 5 }] := by
      decide
    rw [hg]
    simp [voteShare]
